import Mathlib

/-!
Shallow embedding of the bangladesh_scraper repository and proofs about it.

The embedded modules are:
* `src/data_fetcher.py` — leaf fetch engine (`get_item_data`, `scrape_item_data`,
  region discovery `get_unions`);
* `src/master_scraper.py` and `src/fixed-scraper.py` — `parse_item_data` row
  parsers, `generate_date_ranges`, discovery with hardcoded fallbacks, and the
  traversal loops;
* `src/data_processor.py` — per-level traversal loops with their error handling;
* `src/db_scraper_with_resume.py` — the database sink with its duplicate check.

Python exceptions are modelled with `Except String`; Python values appearing in
payload rows with the `Cell` type; the side effects of the database writer with
an explicit event trace.
-/

namespace BDScraper

/-- A value in a payload row: the portal delivers strings or numbers; booleans
appear only in records the scraper itself builds (`eligible`). -/
inductive Cell where
  | str : String → Cell
  | num : Int → Cell
  | bool : Bool → Cell
deriving DecidableEq, Repr

/-- `startsWith n l`: the list `n` occurs at the head of `l`. -/
def startsWith : List Char → List Char → Bool
  | [], _ => true
  | _ :: _, [] => false
  | a :: as, b :: bs => a == b && startsWith as bs

/-- `hasSub n l`: the list `n` occurs contiguously somewhere in `l`
(models Python `n in l` on strings). -/
def hasSub (n : List Char) : List Char → Bool
  | [] => startsWith n []
  | l@(_ :: rest) => startsWith n l || hasSub n rest

/-- Python `needle in haystack` on strings. -/
def strHasSub (n h : String) : Bool := hasSub n.toList h.toList

/-- Python `s.strip()` on a character list: drop whitespace at both ends. -/
def pyStripList (l : List Char) : List Char :=
  ((l.dropWhile Char.isWhitespace).reverse.dropWhile Char.isWhitespace).reverse

/-- Python `s.strip()`. -/
def pyStrip (s : String) : String := String.mk (pyStripList s.toList)

/-- After the `<` opening a candidate HTML tag, consume the `[^>]+` body up to
and including the first `>`; `none` when there is no `>` (the regex
`<[^>]+>` cannot match here). -/
def skipBody : List Char → Option (List Char)
  | [] => none
  | c :: r => if c = '>' then some r else skipBody r

/-- Given the characters after a `<`, return the remainder after a full
`<[^>]+>` match, or `none` when the regex does not match at this `<`
(empty body or no closing `>`). -/
def findTagEnd : List Char → Option (List Char)
  | [] => none
  | c :: rest => if c = '>' then none else skipBody rest

theorem skipBody_length : ∀ (l r : List Char), skipBody l = some r → r.length < l.length := by
  intro l
  induction l with
  | nil => intro r h; simp [skipBody] at h
  | cons c cs ih =>
    intro r h
    simp only [skipBody] at h
    by_cases hc : c = '>'
    · simp [hc] at h
      subst h
      simp
    · simp [hc] at h
      exact Nat.lt_succ_of_lt (ih r h)

theorem findTagEnd_length : ∀ (l r : List Char), findTagEnd l = some r → r.length < l.length := by
  intro l r h
  cases l with
  | nil => simp [findTagEnd] at h
  | cons c cs =>
    simp only [findTagEnd] at h
    by_cases hc : c = '>'
    · simp [hc] at h
    · simp [hc] at h
      exact Nat.lt_succ_of_lt (skipBody_length cs r h)

/-- Python `re.sub(r'<[^>]+>', '', s)`: scan left to right, removing every
match of the tag regex. -/
def stripTags : List Char → List Char
  | [] => []
  | c :: rest =>
    if c = '<' then
      match h : findTagEnd rest with
      | some r => stripTags r
      | none => c :: stripTags rest
    else c :: stripTags rest
termination_by l => l.length
decreasing_by
  all_goals simp_wf
  all_goals first
    | exact Nat.lt_succ_self _
    | exact Nat.lt_succ_of_lt (findTagEnd_length _ _ (by assumption))

/-- `hasTag l`: some position of `l` starts a full match of the HTML-tag
regex `<[^>]+>`. -/
def hasTag : List Char → Bool
  | [] => false
  | c :: rest => (c == '<' && (findTagEnd rest).isSome) || hasTag rest

theorem stripTags_cons_some {rest r : List Char} (h : findTagEnd rest = some r) :
    stripTags ('<' :: rest) = stripTags r := by
  rw [stripTags]
  split
  · split
    · rename_i r2 heq
      rw [h] at heq
      injection heq with heq2
      rw [heq2]
    · rename_i heq
      rw [h] at heq
      simp at heq
  · rename_i hcond
    simp at hcond

theorem stripTags_cons_none {rest : List Char} (h : findTagEnd rest = none) :
    stripTags ('<' :: rest) = '<' :: stripTags rest := by
  rw [stripTags]
  split
  · split
    · rename_i r2 heq
      rw [h] at heq
      simp at heq
    · rfl
  · rename_i hcond
    simp at hcond

theorem stripTags_cons_ne {c : Char} {rest : List Char} (h : ¬ c = '<') :
    stripTags (c :: rest) = c :: stripTags rest := by
  rw [stripTags]
  split
  · rename_i hcond
    exact absurd hcond h
  · rfl

theorem skipBody_sublist : ∀ (l r : List Char), skipBody l = some r → r.Sublist l := by
  intro l
  induction l with
  | nil => intro r h; simp [skipBody] at h
  | cons c cs ih =>
    intro r h
    simp only [skipBody] at h
    by_cases hc : c = '>'
    · simp [hc] at h
      subst h
      exact List.sublist_cons_self _ _
    · simp [hc] at h
      exact (ih r h).cons c

theorem findTagEnd_sublist : ∀ (l r : List Char), findTagEnd l = some r → r.Sublist l := by
  intro l r h
  cases l with
  | nil => simp [findTagEnd] at h
  | cons c cs =>
    simp only [findTagEnd] at h
    by_cases hc : c = '>'
    · simp [hc] at h
    · simp [hc] at h
      exact (skipBody_sublist cs r h).cons c

theorem mem_stripTags : ∀ (l : List Char) (a : Char), a ∈ stripTags l → a ∈ l := by
  intro l
  induction l using stripTags.induct with
  | case1 => intro a h; simp [stripTags] at h
  | case2 rest r hfind ih =>
    intro a h
    rw [stripTags_cons_some hfind] at h
    exact List.mem_cons_of_mem _ ((findTagEnd_sublist rest r hfind).mem (ih a h))
  | case3 rest hfind ih =>
    intro a h
    rw [stripTags_cons_none hfind] at h
    rcases List.mem_cons.mp h with h | h
    · simp [h]
    · exact List.mem_cons_of_mem _ (ih a h)
  | case4 c rest hne ih =>
    intro a h
    rw [stripTags_cons_ne hne] at h
    rcases List.mem_cons.mp h with h | h
    · simp [h]
    · exact List.mem_cons_of_mem _ (ih a h)

theorem skipBody_eq_none_iff : ∀ l : List Char, skipBody l = none ↔ '>' ∉ l := by
  intro l
  induction l with
  | nil => simp [skipBody]
  | cons c cs ih =>
    simp only [skipBody]
    by_cases hc : c = '>'
    · subst hc
      simp
    · simp [hc, ih, List.mem_cons, Ne.symm hc]

theorem findTagEnd_eq_none_of_not_mem {l : List Char} (h : '>' ∉ l) : findTagEnd l = none := by
  cases l with
  | nil => rfl
  | cons c cs =>
    by_cases hc : c = '>'
    · simp [findTagEnd, hc]
    · rw [findTagEnd, if_neg hc]
      exact (skipBody_eq_none_iff cs).mpr (fun hm => h (List.mem_cons_of_mem _ hm))

theorem findTagEnd_stripTags_none : ∀ l : List Char, findTagEnd l = none →
    findTagEnd (stripTags l) = none := by
  intro l h
  cases l with
  | nil => simpa [stripTags] using h
  | cons c cs =>
    by_cases hgt : c = '>'
    · subst hgt
      rw [stripTags_cons_ne (by decide)]
      simp [findTagEnd]
    · have hnot : '>' ∉ cs := by
        rw [findTagEnd, if_neg hgt] at h
        exact (skipBody_eq_none_iff cs).mp h
      have hmem : '>' ∉ stripTags cs := fun hm => hnot (mem_stripTags _ _ hm)
      by_cases hlt : c = '<'
      · subst hlt
        rw [stripTags_cons_none (findTagEnd_eq_none_of_not_mem hnot)]
        rw [findTagEnd, if_neg (by decide)]
        exact (skipBody_eq_none_iff _).mpr hmem
      · rw [stripTags_cons_ne hlt]
        rw [findTagEnd, if_neg hgt]
        exact (skipBody_eq_none_iff _).mpr hmem

/-- Core correctness of the HTML-tag removal: the output of
`re.sub(r'<[^>]+>', '', ·)` contains no match of the same tag regex. -/
theorem hasTag_stripTags : ∀ l : List Char, hasTag (stripTags l) = false := by
  intro l
  induction l using stripTags.induct with
  | case1 => simp [stripTags, hasTag]
  | case2 rest r hfind ih =>
    rw [stripTags_cons_some hfind]
    exact ih
  | case3 rest hfind ih =>
    rw [stripTags_cons_none hfind, hasTag]
    simp [findTagEnd_stripTags_none rest hfind, ih]
  | case4 c rest hne ih =>
    rw [stripTags_cons_ne hne, hasTag]
    have hb : (c == '<') = false := by simp [hne]
    simp [hb, ih]

theorem skipBody_append_some : ∀ (l r t : List Char), skipBody l = some r →
    skipBody (l ++ t) = some (r ++ t) := by
  intro l
  induction l with
  | nil => intro r t h; simp [skipBody] at h
  | cons c cs ih =>
    intro r t h
    simp only [skipBody] at h
    by_cases hc : c = '>'
    · simp [hc] at h
      subst h
      simp [skipBody, hc]
    · simp [hc] at h
      simp only [List.cons_append, skipBody, if_neg hc]
      exact ih r t h

theorem findTagEnd_append_some : ∀ (l r t : List Char), findTagEnd l = some r →
    findTagEnd (l ++ t) = some (r ++ t) := by
  intro l r t h
  cases l with
  | nil => simp [findTagEnd] at h
  | cons c cs =>
    simp only [findTagEnd] at h
    by_cases hc : c = '>'
    · simp [hc] at h
    · simp [hc] at h
      simp only [List.cons_append, findTagEnd, if_neg hc]
      exact skipBody_append_some cs r t h

theorem hasTag_append_left : ∀ (l t : List Char), hasTag l = true → hasTag (l ++ t) = true := by
  intro l
  induction l with
  | nil => intro t h; simp [hasTag] at h
  | cons c cs ih =>
    intro t h
    rw [hasTag] at h
    rw [List.cons_append, hasTag]
    rcases Bool.or_eq_true_iff.mp h with h | h
    · rcases Bool.and_eq_true_iff.mp h with ⟨hc, hs⟩
      rcases Option.isSome_iff_exists.mp hs with ⟨r, hr⟩
      rw [findTagEnd_append_some cs r t hr]
      simp [hc]
    · rw [ih t h]
      simp

theorem hasTag_append_right_false : ∀ (t l : List Char), hasTag (t ++ l) = false →
    hasTag l = false := by
  intro t
  induction t with
  | nil => intro l h; simpa using h
  | cons c ts ih =>
    intro l h
    rw [List.cons_append, hasTag, Bool.or_eq_false_iff] at h
    exact ih l h.2

theorem hasTag_append_left_false (l t : List Char) (h : hasTag (l ++ t) = false) :
    hasTag l = false := by
  cases hl : hasTag l with
  | false => rfl
  | true => rw [hasTag_append_left l t hl] at h; exact absurd h (by simp)

theorem pyStrip_aux_eq (y : List Char) :
    y = (y.reverse.dropWhile Char.isWhitespace).reverse ++
        (y.reverse.takeWhile Char.isWhitespace).reverse := by
  conv_lhs => rw [← List.reverse_reverse y]
  rw [← List.reverse_append, List.takeWhile_append_dropWhile]

theorem hasTag_pyStripList (l : List Char) (h : hasTag l = false) :
    hasTag (pyStripList l) = false := by
  have h1 : hasTag (l.dropWhile Char.isWhitespace) = false := by
    have hta := List.takeWhile_append_dropWhile (p := Char.isWhitespace) (l := l)
    exact hasTag_append_right_false _ _ (by rw [hta]; exact h)
  have h2 := pyStrip_aux_eq (l.dropWhile Char.isWhitespace)
  rw [h2] at h1
  exact hasTag_append_left_false _ _ h1

/-- `re.sub(r'<[^>]+>', '', s)` as a string operation. -/
def stripTagsStr (s : String) : String := String.mk (stripTags s.toList)

/-- The field-cleaning the scraper performs:
`re.sub(r'<[^>]+>', '', value).strip()`. -/
def clean (s : String) : String := pyStrip (stripTagsStr s)

/-- `s` contains a (complete) HTML tag, i.e. a match of `<[^>]+>`. -/
def strHasTag (s : String) : Bool := hasTag s.toList

theorem strHasTag_clean (s : String) : strHasTag (clean s) = false := by
  show hasTag (pyStripList (stripTagsStr s).toList) = false
  have heq : (stripTagsStr s).toList = stripTags s.toList := rfl
  rw [heq]
  exact hasTag_pyStripList _ (hasTag_stripTags _)

/-! ## Python operations on payload cells -/

/-- A payload row (one element of `aaData`). -/
abbrev Row := List Cell

/-- A record as a Python dict: keys in insertion order. -/
abbrev RecordKV := List (String × Cell)

/-- Python `row[i]`: `IndexError` when out of range. -/
def pyIndex (row : Row) (i : Nat) : Except String Cell :=
  if h : i < row.length then .ok (row.get ⟨i, h⟩) else .error "IndexError"

/-- Python `cell == ''`. -/
def cellEqEmpty : Cell → Bool
  | .str s => s == ""
  | _ => false

/-- Python `needle in cell`: `TypeError` when the cell is not a string. -/
def cellHasSub (needle : String) : Cell → Except String Bool
  | .str s => .ok (strHasSub needle s)
  | _ => .error "TypeError"

/-- Python truthiness of a cell. -/
def cellTruthy : Cell → Bool
  | .str s => s != ""
  | .num n => n != 0
  | .bool b => b

/-- Python `str(cell)`, as used by `fixed-scraper.py`'s `str(row[12])`. -/
def cellStr : Cell → String
  | .str s => s
  | .num n => toString n
  | .bool b => if b then "True" else "False"

/-- The field-cleaning loop: strings get `re.sub(r'<[^>]+>','',·).strip()`,
other values pass through unchanged. -/
def cleanCell : Cell → Cell
  | .str s => .str (clean s)
  | c => c

/-! ## `data_fetcher.py`: the leaf fetch engine -/

/-- The 12 positional text fields of `get_item_data`'s aaData records, in
construction order (`data_fetcher.py` lines 135-147). -/
def dfFieldNames : List String :=
  ["serial", "facility", "opening_balance", "received", "total", "adj_plus",
   "adj_minus", "grand_total", "distribution", "closing_balance",
   "stock_out_reason", "stock_out_days"]

/-- One aaData record as built by `data_fetcher.get_item_data` (lines 135-157):
positions 0-11 keyed by `dfFieldNames`, `eligible` from the `tick.png` marker
at position 12, then the HTML-cleaning loop over the string values. The dict
literal reads `row[0]`..`row[12]`, so a row shorter than 13 raises
`IndexError`; the `'tick.png' in row[12]` test raises `TypeError` on a
non-string. -/
def dfRecordOfRow (row : Row) : Except String RecordKV :=
  if 13 ≤ row.length then
    match cellHasSub "tick.png" (row.getD 12 (.str "")) with
    | .error e => .error e
    | .ok elig =>
      .ok ((dfFieldNames.zip
            (((List.range 12).map (fun i => row.getD i (.str ""))).map cleanCell)) ++
          [("eligible", .bool elig)])
  else .error "IndexError"

/-- The aaData conversion loop of `data_fetcher.get_item_data`
(lines 130-157): skip a row whose first cell is `''` and whose second cell
contains `Grand Total` (short-circuit `and`); build a record from every other
row. -/
def dfParseAaData : List Row → Except String (List RecordKV)
  | [] => .ok []
  | row :: rest =>
    match pyIndex row 0 with
    | .error e => .error e
    | .ok c0 =>
      match (if cellEqEmpty c0 then
               match pyIndex row 1 with
               | .error e => .error e
               | .ok c1 => cellHasSub "Grand Total" c1
             else .ok false : Except String Bool) with
      | .error e => .error e
      | .ok skip =>
        if skip then dfParseAaData rest
        else
          match dfRecordOfRow row with
          | .error e => .error e
          | .ok record =>
            match dfParseAaData rest with
            | .error e => .error e
            | .ok recs => .ok (record :: recs)

/-- The response shapes distinguished by `get_item_data` (lines 121-174). -/
inductive ApiResp where
  | aaData (rows : List Row)
  | dataKey (recs : List RecordKV)
  | list (recs : List RecordKV)
  | other
  | invalidJson
  | noResponse

/-- `data_fetcher.get_item_data` (lines 95-178): the structured-API strategy.
`scrapeResult` is what the `scrape_item_data` fallback would return; the
function falls through to it on a missing/empty response, invalid JSON, or an
exception inside the aaData conversion. A `data`-keyed or bare-list payload is
returned unmodified; any other dict yields `[]`. -/
def get_item_data (resp : ApiResp) (scrapeResult : List RecordKV) : List RecordKV :=
  match resp with
  | .aaData rows =>
    match dfParseAaData rows with
    | .ok recs => recs
    | .error _ => scrapeResult
  | .dataKey recs => recs
  | .list recs => recs
  | .other => []
  | .invalidJson => scrapeResult
  | .noResponse => scrapeResult

/-- A `<tr>` of the scraped table: its full text content and the text of its
`<td>` cells, as extracted by the HTML parser. -/
structure ScrapeRow where
  text : String
  cells : List String
deriving DecidableEq, Repr

/-- `cells[i].text.strip() if len(cells) > i else dflt`. -/
def cellOr (cells : List String) (i : Nat) (dflt : String) : String :=
  if i < cells.length then pyStrip (cells.getD i "") else dflt

/-- One record as built by `scrape_item_data` (lines 240-254); `eligible` is
unconditionally `True` there. -/
def scrapeRecordOfRow (r : ScrapeRow) : RecordKV :=
  [("serial", .str (pyStrip (r.cells.getD 0 ""))),
   ("facility", .str (pyStrip (r.cells.getD 1 ""))),
   ("opening_balance", .str (pyStrip (r.cells.getD 2 ""))),
   ("received", .str (pyStrip (r.cells.getD 3 ""))),
   ("total", .str (pyStrip (r.cells.getD 4 ""))),
   ("adj_plus", .str (cellOr r.cells 5 "0")),
   ("adj_minus", .str (cellOr r.cells 6 "0")),
   ("grand_total", .str (cellOr r.cells 7 (pyStrip (r.cells.getD 4 "")))),
   ("distribution", .str (cellOr r.cells 8 "0")),
   ("closing_balance", .str (cellOr r.cells 9 "0")),
   ("stock_out_reason", .str (cellOr r.cells 10 "")),
   ("stock_out_days", .str (cellOr r.cells 11 "")),
   ("eligible", .bool true)]

/-- The row loop of `scrape_item_data` (lines 231-258): skip the `Grand Total`
row, skip rows with fewer than 8 cells, build a record from the rest. -/
def scrapeRows : List ScrapeRow → List RecordKV
  | [] => []
  | r :: rest =>
    if strHasSub "Grand Total" r.text then scrapeRows rest
    else if r.cells.length < 8 then scrapeRows rest
    else scrapeRecordOfRow r :: scrapeRows rest

/-- A `{id, name}` discovery result (a union in `data_fetcher.get_unions` /
`fixed-scraper.get_unions`). -/
structure Union where
  code : String
  name : String
deriving DecidableEq, Repr

/-- A `{upazila_id, upazila_name}` discovery result. -/
structure Upazila where
  id : String
  name : String
deriving DecidableEq, Repr

/-- JSON shapes handled by `data_fetcher.get_unions` (lines 47-54): a bare
list, a dict read with `.get('data', [])`, or unparseable JSON. -/
inductive UnionsResp where
  | jlist (us : List Union)
  | jdict (data : Option (List Union))
  | invalid

/-- `data_fetcher.get_unions` (lines 33-54): `none` models a failed request
(`_make_request` returned a falsy response). -/
def df_get_unions : Option UnionsResp → List Union
  | none => []
  | some (.jlist us) => us
  | some (.jdict (some us)) => us
  | some (.jdict none) => []
  | some .invalid => []

/-! ## `fixed-scraper.py` -/

/-- One retry attempt of `fixed-scraper.get_unions` (lines 276-332), abstracted
to its outcome: `some us` when the attempt parsed a union list (JSON, union
regex, or option regex — including an empty JSON list, which is returned
as-is), `none` when the attempt yielded nothing (bad status, no parse, or an
exception). -/
abbrev DiscoveryAttempt (α : Type) := Option (List α)

/-- `fixed-scraper.get_unions` (lines 264-336): first successful attempt wins;
after exhausting all retries, a hardcoded single-element test fallback is
returned. -/
def fs_get_unions : List (DiscoveryAttempt Union) → List Union
  | [] => [⟨"1", "01. Prembug"⟩]
  | some us :: _ => us
  | none :: rest => fs_get_unions rest

/-- `fixed-scraper.get_upazilas` (lines 164-262), for a warehouse that has no
entry in the static mapping: same retry structure (each attempt's outcome is
whatever list that attempt returned, through JSON, mapping fallback, or
regex), with a hardcoded test upazila as terminal fallback after exhausting
retries (lines 260-262). -/
def fs_get_upazilas : List (DiscoveryAttempt Upazila) → List Upazila
  | [] => [⟨"T429", "Abhaynagar, Jashore"⟩]
  | some us :: _ => us
  | none :: rest => fs_get_upazilas rest

/-- Python `f"{m:02d}"`. -/
def render2 (m : Nat) : String := if m < 10 then "0" ++ toString m else toString m

/-- The `while` loop of `fixed-scraper.generate_date_ranges` (lines 126-137),
carrying the current (year, month) cursor. -/
def genDateRangesAux (ey em : Nat) (cy cm : Nat) : List (String × String) :=
  if h : cy < ey ∨ (cy = ey ∧ cm ≤ em) then
    (toString cy, render2 cm) ::
      (if h2 : cm + 1 > 12 then genDateRangesAux ey em (cy + 1) 1
       else genDateRangesAux ey em cy (cm + 1))
  else []
termination_by ((ey + 1) - cy, 13 - cm)
decreasing_by
  · exact Prod.Lex.left _ _ (by omega)
  · exact Prod.Lex.right _ (by omega)

/-- `fixed-scraper.generate_date_ranges` (lines 119-140): all year-month pairs
from the start to the end period, year as `str(..)`, month as `f"{..:02d}"`. -/
def generate_date_ranges (sy sm ey em : Nat) : List (String × String) :=
  genDateRangesAux ey em sy sm

/-- The 13 column names of `parse_item_data` in `master_scraper.py`
(lines 31-35) and `fixed-scraper.py` (lines 481-485). -/
def columns : List String :=
  ["serial", "facility", "opening_balance", "received", "total", "adj_plus",
   "adj_minus", "grand_total", "distribution", "closing_balance",
   "stock_out_reason", "stock_out_days", "eligible"]

/-- The record-building loop shared by both `parse_item_data` variants
(`master_scraper.py` lines 49-59, `fixed-scraper.py` lines 498-509): for each
column index, the cleaned cell when the row is long enough, else `""`. -/
def recordOfRowGeneric (row : Row) : RecordKV :=
  columns.enum.map (fun p =>
    (p.2, if p.1 < row.length then cleanCell (row.getD p.1 (.str "")) else Cell.str ""))

/-- The dead-but-effectful `eligible` probe of `master_scraper.parse_item_data`
(lines 44-46): `'<img src=' in row[12]` raises `TypeError` on a non-string. -/
def msEligProbe (row : Row) : Except String Unit :=
  if 12 < row.length then
    match cellHasSub "<img src=" (row.getD 12 (.str "")) with
    | .error e => .error e
    | .ok _ => .ok ()
  else .ok ()

/-- The skip condition of `master_scraper.parse_item_data` (line 40):
`isinstance(row[0], str) and row[0].strip() == ""`. -/
def msSkip (c0 : Cell) : Bool :=
  match c0 with
  | .str s => pyStrip s == ""
  | _ => false

/-- `master_scraper.parse_item_data` row loop (lines 38-61): skip every row
whose first cell is a string that strips to `""` — regardless of any
`Grand Total` marker. -/
def ms_parse_item_data : List Row → Except String (List RecordKV)
  | [] => .ok []
  | row :: rest =>
    match pyIndex row 0 with
    | .error e => .error e
    | .ok c0 =>
      if msSkip c0 then ms_parse_item_data rest
      else
        match msEligProbe row with
        | .error e => .error e
        | .ok _ =>
          match ms_parse_item_data rest with
          | .error e => .error e
          | .ok recs => .ok (recordOfRowGeneric row :: recs)

/-- The skip condition of `fixed-scraper.parse_item_data` (line 490):
`not row[0] or (isinstance(row[0], str) and row[0].strip() == "")`. -/
def fsSkip (c0 : Cell) : Bool :=
  !(cellTruthy c0) || (match c0 with | .str s => pyStrip s == "" | _ => false)

/-- `fixed-scraper.parse_item_data` row loop (lines 488-511); its `eligible`
probe goes through `str(row[12])` and cannot raise. -/
def fs_parse_item_data : List Row → Except String (List RecordKV)
  | [] => .ok []
  | row :: rest =>
    match pyIndex row 0 with
    | .error e => .error e
    | .ok c0 =>
      if fsSkip c0 then fs_parse_item_data rest
      else
        match fs_parse_item_data rest with
        | .error e => .error e
        | .ok recs => .ok (recordOfRowGeneric row :: recs)

/-! ## Traversal loops and their error handling

Each loop is embedded parametrically in the processing of one sibling, an
`Except String`-valued function standing for a call that may raise. -/

/-- A `{whrec_id, wh_name}` warehouse as used by `data_processor.py`. -/
structure Warehouse where
  whrec_id : String
  wh_name : String
deriving DecidableEq, Repr

/-- The summary built by `data_processor.process_upazila` (lines 165-170):
`union_results` entries are `(UnionName, UnionCode, files_saved)` triples. -/
structure DPUpazilaSummary where
  union_count : Nat
  files_saved : Nat
  union_results : List (String × String × Nat)
  errors : List String
deriving DecidableEq, Repr

/-- The error message recorded by `data_processor.process_upazila`
(line 158). -/
def dpUnionErrMsg (u : Union) (e : String) : String :=
  "Error processing union " ++ u.name ++ ": " ++ e

/-- The union loop of `data_processor.process_upazila` (lines 146-163): each
union is processed inside its own `try`; on success a result entry is
appended, on an exception an error message is appended, and the loop
continues. -/
def dpUpazilaLoop (f : Union → Except String Nat) :
    List Union → Nat × List (String × String × Nat) × List String
  | [] => (0, [], [])
  | u :: rest =>
    match f u with
    | .ok n =>
      let p := dpUpazilaLoop f rest
      (n + p.1, (u.name, u.code, n) :: p.2.1, p.2.2)
    | .error e =>
      let p := dpUpazilaLoop f rest
      (p.1, p.2.1, dpUnionErrMsg u e :: p.2.2)

/-- `data_processor.process_upazila` (lines 126-170), with the union list
already discovered and the per-union processing abstracted as `f`. -/
def process_upazila (unions : List Union) (f : Union → Except String Nat) :
    DPUpazilaSummary :=
  let p := dpUpazilaLoop f unions
  ⟨unions.length, p.1, p.2.1, p.2.2⟩

/-- The error entry appended by `data_processor.process_month` (lines 250-256):
`(name with &#039; decoded, id, [error message])`. -/
def dpMonthErrEntry (w : Warehouse) (e : String) : String × String × List String :=
  (w.wh_name.replace "&#039;" "\x27", w.whrec_id,
   ["Error processing warehouse " ++ w.wh_name ++ ": " ++ e])

/-- The warehouse loop of `data_processor.process_month` (lines 244-259): each
warehouse is processed inside its own `try`; the monthly summary gets either
the warehouse summary or an error entry, and the loop continues. -/
def process_month {W : Type} (procWh : Warehouse → Except String W) :
    List Warehouse → List (W ⊕ (String × String × List String))
  | [] => []
  | w :: rest =>
    match procWh w with
    | .ok s => .inl s :: process_month procWh rest
    | .error e => .inr (dpMonthErrEntry w e) :: process_month procWh rest

/-- The sequential upazila loop of `fixed-scraper.process_warehouse`
(lines 668-683): per-iteration `try`, appending the result to
`upazilas_processed` or the message to `stats["errors"]`. -/
def fsWarehouseSeqLoop {U : Type} (procUpz : Upazila → Except String U) :
    List Upazila → List U × List String
  | [] => ([], [])
  | u :: rest =>
    let p := fsWarehouseSeqLoop procUpz rest
    match procUpz u with
    | .ok r => (r :: p.1, p.2)
    | .error e => (p.1, ("Error in upazila processing " ++ u.name ++ ": " ++ e) :: p.2)

/-- The result record of `fixed-scraper.process_upazila` (lines 607-612). -/
structure FSUpazilaResult (U : Type) where
  union_count : Nat
  unions_processed : List U
deriving DecidableEq, Repr

/-- `fixed-scraper.process_upazila` (lines 595-623): its union loop
(lines 615-621) has NO try/except, so an exception from `process_union`
propagates out of the loop. -/
def fs_process_upazila {U : Type} (unions : List Union)
    (procUnion : Union → Except String U) : Except String (FSUpazilaResult U) := do
  let rs ← unions.mapM procUnion
  pure ⟨unions.length, rs⟩

/-! ## `data_processor.process_union_data` (lines 9-55): the item loop

The whole item-tab loop sits inside one `try`; an exception from processing
one item is caught by the enclosing handler, which abandons the remaining
item tabs and runs the static-catalog fallback loop instead (lines 49-53),
appending no error to any summary. -/

/-- A `{itemCode, itemName}` item descriptor. -/
structure Item where
  itemCode : String
  itemName : String
deriving DecidableEq, Repr

/-- The inner item-tab loop (lines 36-43): returns the files saved so far
paired with `some e` when an iteration raised (aborting the loop). -/
def dpItemLoop (f : Item → Except String Nat) :
    List Item → Nat → Nat × Option String
  | [], acc => (acc, none)
  | it :: rest, acc =>
    if it.itemCode == "" || it.itemName == "" then dpItemLoop f rest acc
    else
      match f it with
      | .ok n => dpItemLoop f rest (acc + n)
      | .error e => (acc, some e)

/-- The static-catalog fallback loop (lines 47-48 and 52-53): no `continue`
guard and no per-iteration catch, so an exception propagates. -/
def dpStaticLoop (f : Item → Except String Nat) :
    List Item → Nat → Except String Nat
  | [], acc => .ok acc
  | it :: rest, acc =>
    match f it with
    | .ok n => dpStaticLoop f rest (acc + n)
    | .error e => .error e

/-- The static-catalog loop when it runs inside the `try` (lines 47-48):
returns the files saved so far paired with `some e` when an iteration
raised, so the `except` fallback resumes from the partial count. -/
def dpStaticLoopPartial (f : Item → Except String Nat) :
    List Item → Nat → Nat × Option String
  | [], acc => (acc, none)
  | it :: rest, acc =>
    match f it with
    | .ok n => dpStaticLoopPartial f rest (acc + n)
    | .error e => (acc, some e)

/-- `data_processor.process_union_data` (lines 29-55), with item-tab discovery
and per-item processing abstracted. Result is the returned `files_saved`
(or a propagated exception out of the `except`-branch fallback loop). -/
def process_union_data (tabs : Except String (List Item))
    (f : Item → Except String Nat) (staticItems : List Item) : Except String Nat :=
  match tabs with
  | .error _ => dpStaticLoop f staticItems 0
  | .ok tabList =>
    if tabList.isEmpty then
      match dpStaticLoopPartial f staticItems 0 with
      | (n, none) => .ok n
      | (n, some _) => dpStaticLoop f staticItems n
    else
      match dpItemLoop f tabList 0 with
      | (n, none) => .ok n
      | (n, some _) => dpStaticLoop f staticItems n

/-! ## `db_scraper_with_resume.py`: the database sink -/

/-- One row of `Form_F3_Data` as inserted by `_process_single_item_to_db`
(lines 216-261), keyed by the columns the duplicate check matches on, plus
the source record. -/
structure DbRow where
  year : String
  month : String
  warehouse : String
  upazila : String
  product : String
  record : RecordKV
deriving DecidableEq, Repr

/-- The duplicate check of `_process_single_item_to_db` (lines 194-201):
`COUNT(*)` of rows matching `(year, month, warehouse, upazila, product)`. -/
def matchCount (rows : List DbRow) (y m wh upz prod : String) : Nat :=
  (rows.filter (fun r =>
    r.year == y && r.month == m && r.warehouse == wh && r.upazila == upz &&
      r.product == prod)).length

/-- Observable effects of `_process_single_item_to_db`. -/
inductive Ev where
  | fetch
  | insert (r : DbRow)
  | progress (status : String) (records : Nat)
deriving DecidableEq, Repr

/-- `db_scraper_with_resume._process_single_item_to_db` (lines 151-296):
progress update, then the leaf-engine fetch (`Ev.fetch`), and only when the
fetch yielded data the duplicate check, then skip or insert. Returns the new
table contents and the event trace. -/
def process_single_item_to_db (st : List DbRow) (y m wh upz prod : String)
    (fetchResult : Except String (List RecordKV)) : List DbRow × List Ev :=
  let pre := [Ev.progress "in_progress" 0, Ev.fetch]
  match fetchResult with
  | .error _ => (st, pre ++ [Ev.progress "failed" 0])
  | .ok data =>
    if data.isEmpty then
      (st, pre ++ [Ev.progress "failed" 0])
    else
      let existing := matchCount st y m wh upz prod
      if existing > 0 then
        (st, pre ++ [Ev.progress "completed" existing])
      else
        let newRows := data.map (fun r => DbRow.mk y m wh upz prod r)
        (st ++ newRows, pre ++ newRows.map Ev.insert ++
          [Ev.progress "completed" newRows.length])

/-! ## Transport-layer backoff -/

/-- Modelled from the spec: the transport layer
`FamilyPlanningDataFetcher._make_request` lives in the original `scraper.py`
module (imported by `__init__.py` and by every db-scraper variant, and called
as `self._make_request` throughout `data_fetcher.py`) but is not part of the
source snapshot. Per spec §4.1 the wait before retry attempt `n` (0-indexed)
is `2^n` seconds plus a random jitter drawn from `[0, n)`. -/
def transportWait (n : Nat) (jitter : ℚ) : ℚ := 2 ^ n + jitter

/-- The expected wait before attempt `n`: the mean of `transportWait n` over
the uniform jitter range `[0, n)`, i.e. the midpoint of its endpoints. -/
def expectedWait (n : Nat) : ℚ := (transportWait n 0 + transportWait n (n : ℚ)) / 2

/-- Dict lookup `record[k]` restricted to the first matching key. -/
def lookupKV (k : String) (r : RecordKV) : Option Cell :=
  (r.find? (fun p => p.1 == k)).map Prod.snd

/-! ## Helper characterizations -/

theorem scrapeRows_filter_eq (rows : List ScrapeRow) :
    scrapeRows rows =
      (rows.filter (fun r =>
        !(strHasSub "Grand Total" r.text) && decide (8 ≤ r.cells.length))).map
        scrapeRecordOfRow := by
  induction rows with
  | nil => rfl
  | cons r rest ih =>
    rw [scrapeRows]
    by_cases h1 : strHasSub "Grand Total" r.text = true
    · simp [h1, List.filter_cons, ih]
    · by_cases h2 : r.cells.length < 8
      · have h8 : ¬ (8 ≤ r.cells.length) := by omega
        simp [h1, h2, h8, List.filter_cons, ih]
      · have h8 : 8 ≤ r.cells.length := by omega
        simp [h1, h2, h8, List.filter_cons, ih]

theorem dpUpazilaLoop_results (f : Union → Except String Nat) (unions : List Union) :
    (dpUpazilaLoop f unions).2.1 =
      unions.filterMap (fun u =>
        match f u with
        | .ok n => some (u.name, u.code, n)
        | .error _ => none) ∧
    (dpUpazilaLoop f unions).2.2 =
      unions.filterMap (fun u =>
        match f u with
        | .error e => some (dpUnionErrMsg u e)
        | .ok _ => none) := by
  induction unions with
  | nil => exact ⟨rfl, rfl⟩
  | cons u rest ih =>
    rw [dpUpazilaLoop]
    cases hf : f u with
    | ok n => simp [hf, List.filterMap_cons, ih.1, ih.2]
    | error e => simp [hf, List.filterMap_cons, ih.1, ih.2]

theorem process_month_eq {W : Type} (procWh : Warehouse → Except String W)
    (ws : List Warehouse) :
    process_month procWh ws =
      ws.map (fun w =>
        match procWh w with
        | .ok s => .inl s
        | .error e => .inr (dpMonthErrEntry w e)) := by
  induction ws with
  | nil => rfl
  | cons w rest ih =>
    rw [process_month]
    cases hf : procWh w with
    | ok s => simp [hf, ih]
    | error e => simp [hf, ih]

theorem fsWarehouseSeqLoop_eq {U : Type} (procUpz : Upazila → Except String U)
    (us : List Upazila) :
    (fsWarehouseSeqLoop procUpz us).1 =
      us.filterMap (fun u => (procUpz u).toOption) ∧
    (fsWarehouseSeqLoop procUpz us).2 =
      us.filterMap (fun u =>
        match procUpz u with
        | .error e => some ("Error in upazila processing " ++ u.name ++ ": " ++ e)
        | .ok _ => none) := by
  induction us with
  | nil => exact ⟨rfl, rfl⟩
  | cons u rest ih =>
    rw [fsWarehouseSeqLoop]
    cases hf : procUpz u with
    | ok r => simp [hf, List.filterMap_cons, ih.1, ih.2, Except.toOption]
    | error e => simp [hf, List.filterMap_cons, ih.1, ih.2, Except.toOption]

theorem recordOfRowGeneric_keys (row : Row) :
    (recordOfRowGeneric row).map Prod.fst = columns := by
  rw [recordOfRowGeneric, List.map_map]
  have h : (Prod.fst ∘ fun p : Nat × String =>
      (p.2, if p.1 < row.length then cleanCell (row.getD p.1 (.str "")) else Cell.str "")) =
      Prod.snd := by
    funext p
    rfl
  rw [h, List.enum_map_snd]

/-! ## Claim theorems -/

/-- C3 (counterexample): in `fixed-scraper.process_upazila` the union loop has
no per-iteration handler, so an exception raised while processing the first
union propagates out of the loop and the second union is never processed —
contradicting "no exception from a child's processing propagates out of the
enclosing loop" at the union level. -/
theorem fs_process_upazila_propagates :
    fs_process_upazila (U := String) [⟨"1", "A"⟩, ⟨"2", "B"⟩]
      (fun u => if u.code == "1" then .error "boom" else .ok u.name) =
      .error "boom" := rfl

/-- C3 (amended): at the three cited loops — `data_processor.process_upazila`
over unions, `data_processor.process_month` over warehouses, and the
sequential upazila loop of `fixed-scraper.process_warehouse` — an exception
from one sibling is caught at that iteration, an error message/entry is
recorded in that node's summary, and every sibling contributes exactly one
outcome in order; the loops are total, so no exception propagates out of
them. -/
theorem traversal_loops_catch_per_sibling :
    (∀ (f : Union → Except String Nat) (unions : List Union),
      (process_upazila unions f).union_results =
        unions.filterMap (fun u =>
          match f u with
          | .ok n => some (u.name, u.code, n)
          | .error _ => none) ∧
      (process_upazila unions f).errors =
        unions.filterMap (fun u =>
          match f u with
          | .error e => some (dpUnionErrMsg u e)
          | .ok _ => none) ∧
      (process_upazila unions f).union_count = unions.length) ∧
    (∀ (W : Type) (procWh : Warehouse → Except String W) (ws : List Warehouse),
      process_month procWh ws =
        ws.map (fun w =>
          match procWh w with
          | .ok s => .inl s
          | .error e => .inr (dpMonthErrEntry w e))) ∧
    (∀ (U : Type) (procUpz : Upazila → Except String U) (us : List Upazila),
      (fsWarehouseSeqLoop procUpz us).1 =
        us.filterMap (fun u => (procUpz u).toOption) ∧
      (fsWarehouseSeqLoop procUpz us).2 =
        us.filterMap (fun u =>
          match procUpz u with
          | .error e =>
            some ("Error in upazila processing " ++ u.name ++ ": " ++ e)
          | .ok _ => none)) := by
  refine ⟨fun f unions => ?_, fun W procWh ws => process_month_eq procWh ws,
    fun U procUpz us => fsWarehouseSeqLoop_eq procUpz us⟩
  exact ⟨(dpUpazilaLoop_results f unions).1, (dpUpazilaLoop_results f unions).2, rfl⟩

/-- C7: the HTML-scrape row loop returns exactly one record per row that does
not contain the `Grand Total` text and has at least 8 cells, in order; rows
with fewer than 8 cells yield no record, and the loop is a total function
(no exception). -/
theorem scrape_skips_short_rows (rows : List ScrapeRow) :
    scrapeRows rows =
      (rows.filter (fun r =>
        !(strHasSub "Grand Total" r.text) && decide (8 ≤ r.cells.length))).map
        scrapeRecordOfRow :=
  scrapeRows_filter_eq rows

/-- C8 (counterexample): `fixed-scraper.get_unions` does NOT return an empty
list when every retry attempt yields nothing — it substitutes a hardcoded
single-element test fallback. -/
theorem fs_get_unions_hardcoded_fallback :
    fs_get_unions [none, none, none] = [⟨"1", "01. Prembug"⟩] ∧
    fs_get_unions [none, none, none] ≠ [] := by
  refine ⟨rfl, ?_⟩
  decide

/-- C8 (amended): `data_fetcher.get_unions` returns `[]` when the request
fails or nothing parses, but `fixed-scraper.get_unions` / `get_upazilas`
return a hardcoded single-element test fallback after exhausting all retry
attempts. -/
theorem discovery_empty_vs_hardcoded :
    (df_get_unions none = [] ∧ df_get_unions (some .invalid) = [] ∧
      df_get_unions (some (.jdict none)) = []) ∧
    (∀ attempts, (∀ a ∈ attempts, a = none) →
      fs_get_unions attempts = [⟨"1", "01. Prembug"⟩]) ∧
    (∀ attempts, (∀ a ∈ attempts, a = none) →
      fs_get_upazilas attempts = [⟨"T429", "Abhaynagar, Jashore"⟩]) := by
  refine ⟨⟨rfl, rfl, rfl⟩, fun attempts h => ?_, fun attempts h => ?_⟩
  · induction attempts with
    | nil => rfl
    | cons a rest ih =>
      have ha : a = none := h a (List.mem_cons_self a rest)
      subst ha
      rw [fs_get_unions]
      exact ih (fun x hx => h x (List.mem_cons_of_mem _ hx))
  · induction attempts with
    | nil => rfl
    | cons a rest ih =>
      have ha : a = none := h a (List.mem_cons_self a rest)
      subst ha
      rw [fs_get_upazilas]
      exact ih (fun x hx => h x (List.mem_cons_of_mem _ hx))

/-- C8 witness: the amended theorem applied to a concrete all-failed attempt
list. -/
theorem discovery_empty_vs_hardcoded_witness :
    fs_get_unions [none] = [⟨"1", "01. Prembug"⟩] :=
  discovery_empty_vs_hardcoded.2.1 [none] (by simp)

/-- C9: the transport-layer wait for attempt `n` is `2^n` plus the jitter, so
the expected wait is `2^n + n/2`, which is strictly increasing (hence
non-decreasing) in `n`. The transport layer itself is not part of the source
snapshot; `transportWait` is modelled from spec §4.1. -/
theorem backoff_expected_monotone :
    (∀ n : Nat, expectedWait n = 2 ^ n + (n : ℚ) / 2) ∧
    (∀ m n : Nat, m < n → expectedWait m < expectedWait n) := by
  have hval : ∀ n : Nat, expectedWait n = 2 ^ n + (n : ℚ) / 2 := by
    intro n
    rw [expectedWait, transportWait, transportWait]
    ring
  refine ⟨hval, fun m n hmn => ?_⟩
  rw [hval m, hval n]
  have h1 : (2 : ℚ) ^ m < 2 ^ n := by
    apply pow_lt_pow_right₀ (by norm_num) hmn
  have h2 : (m : ℚ) / 2 ≤ (n : ℚ) / 2 := by
    apply div_le_div_of_nonneg_right ?_ (by norm_num)
    exact_mod_cast Nat.le_of_lt hmn
  linarith

/-- C9 witness: the monotonicity theorem applied at attempts 1 and 2. -/
theorem backoff_expected_monotone_witness : expectedWait 1 < expectedWait 2 :=
  backoff_expected_monotone.2 1 2 (by norm_num)

/-- C10: every record emitted by either `parse_item_data` row parser
(`master_scraper.py` and `fixed-scraper.py`) has exactly the 13 canonical
field names, in order, regardless of the input row's length. -/
theorem parsed_record_keys_canonical :
    (∀ rows recs, ms_parse_item_data rows = .ok recs →
      ∀ rec ∈ recs, rec.map Prod.fst = columns) ∧
    (∀ rows recs, fs_parse_item_data rows = .ok recs →
      ∀ rec ∈ recs, rec.map Prod.fst = columns) := by
  constructor
  · intro rows
    induction rows with
    | nil =>
      intro recs h rec hrec
      rw [ms_parse_item_data] at h
      injection h with h
      subst h
      simp at hrec
    | cons row rest ih =>
      intro recs h rec hrec
      rw [ms_parse_item_data] at h
      cases h0 : pyIndex row 0 with
      | error e => rw [h0] at h; exact absurd h (by simp)
      | ok c0 =>
        rw [h0] at h
        dsimp only at h
        by_cases hs : msSkip c0 = true
        · rw [if_pos hs] at h
          exact ih recs h rec hrec
        · rw [if_neg hs] at h
          cases hp : msEligProbe row with
          | error e => rw [hp] at h; exact absurd h (by simp)
          | ok u =>
            rw [hp] at h
            dsimp only at h
            cases hr : ms_parse_item_data rest with
            | error e => rw [hr] at h; exact absurd h (by simp)
            | ok recs2 =>
              rw [hr] at h
              dsimp only at h
              injection h with h
              subst h
              rcases List.mem_cons.mp hrec with hrec | hrec
              · subst hrec
                exact recordOfRowGeneric_keys row
              · exact ih recs2 hr rec hrec
  · intro rows
    induction rows with
    | nil =>
      intro recs h rec hrec
      rw [fs_parse_item_data] at h
      injection h with h
      subst h
      simp at hrec
    | cons row rest ih =>
      intro recs h rec hrec
      rw [fs_parse_item_data] at h
      cases h0 : pyIndex row 0 with
      | error e => rw [h0] at h; exact absurd h (by simp)
      | ok c0 =>
        rw [h0] at h
        dsimp only at h
        by_cases hs : fsSkip c0 = true
        · rw [if_pos hs] at h
          exact ih recs h rec hrec
        · rw [if_neg hs] at h
          cases hr : fs_parse_item_data rest with
          | error e => rw [hr] at h; exact absurd h (by simp)
          | ok recs2 =>
            rw [hr] at h
            dsimp only at h
            injection h with h
            subst h
            rcases List.mem_cons.mp hrec with hrec | hrec
            · subst hrec
              exact recordOfRowGeneric_keys row
            · exact ih recs2 hr rec hrec

/-- C10 witness: the keys theorem applied to a concrete single-cell row. -/
theorem parsed_record_keys_canonical_witness :
    (recordOfRowGeneric [Cell.str "1"]).map Prod.fst = columns :=
  parsed_record_keys_canonical.1 [[Cell.str "1"]] _ rfl
    (recordOfRowGeneric [Cell.str "1"]) (by simp)

/-! ## The aaData characterization (C2, C5, C6) -/

/-- The cell is a Python string. -/
def isStrCell : Cell → Bool
  | .str _ => true
  | _ => false

/-- A well-formed aaData row as the structured strategy expects it: a
fixed-width 13-position array of strings. -/
def wfRow (row : Row) : Bool :=
  decide (13 ≤ row.length) && row.all isStrCell

/-- The synthetic `Grand Total` marker: empty first cell and a `Grand Total`
text in the second. -/
def isGTRow (row : Row) : Bool :=
  cellEqEmpty (row.getD 0 (.str "")) &&
    (match row.getD 1 (.str "") with
     | .str s => strHasSub "Grand Total" s
     | _ => false)

/-- The `tick.png` marker at position 12. -/
def rowTick (row : Row) : Bool :=
  match row.getD 12 (.str "") with
  | .str s => strHasSub "tick.png" s
  | _ => false

/-- The record `dfRecordOfRow` produces on a well-formed row, as a total
function. -/
def dfRecordTotal (row : Row) : RecordKV :=
  (dfFieldNames.zip
    (((List.range 12).map (fun i => row.getD i (.str ""))).map cleanCell)) ++
    [("eligible", .bool (rowTick row))]

theorem pyIndex_ok {row : Row} {i : Nat} (h : i < row.length) :
    pyIndex row i = .ok (row.getD i (Cell.str "")) := by
  rw [pyIndex, dif_pos h]
  congr 1
  rw [List.getD_eq_getElem row _ h]
  simp

theorem getD_mem {row : Row} {i : Nat} (h : i < row.length) :
    row.getD i (Cell.str "") ∈ row := by
  rw [List.getD_eq_getElem row _ h]
  exact List.getElem_mem h

theorem dfRecordOfRow_ok {row : Row} (hw : wfRow row = true) :
    dfRecordOfRow row = .ok (dfRecordTotal row) := by
  have h13 : 13 ≤ row.length := by
    have := (Bool.and_eq_true_iff.mp hw).1
    exact of_decide_eq_true this
  have hstr : ∀ c ∈ row, isStrCell c = true :=
    List.all_eq_true.mp (Bool.and_eq_true_iff.mp hw).2
  have h12 := hstr _ (getD_mem (show 12 < row.length by omega))
  rw [dfRecordOfRow, if_pos h13]
  cases hc : row.getD 12 (Cell.str "") with
  | str s =>
    rw [show cellHasSub "tick.png" (Cell.str s) = .ok (strHasSub "tick.png" s) from rfl]
    dsimp only
    rw [dfRecordTotal, rowTick, hc]
  | num n => rw [hc] at h12; simp [isStrCell] at h12
  | bool b => rw [hc] at h12; simp [isStrCell] at h12

theorem dfParseAaData_eq (rows : List Row)
    (h : ∀ row ∈ rows, wfRow row = true) :
    dfParseAaData rows =
      .ok ((rows.filter (fun r => !(isGTRow r))).map dfRecordTotal) := by
  induction rows with
  | nil => rfl
  | cons row rest ih =>
    have hrow : wfRow row = true := h row (List.mem_cons_self _ _)
    have hrest : ∀ r ∈ rest, wfRow r = true :=
      fun r hr => h r (List.mem_cons_of_mem _ hr)
    have h13 : 13 ≤ row.length := by
      have := (Bool.and_eq_true_iff.mp hrow).1
      exact of_decide_eq_true this
    have hstr : ∀ c ∈ row, isStrCell c = true :=
      List.all_eq_true.mp (Bool.and_eq_true_iff.mp hrow).2
    rw [dfParseAaData, pyIndex_ok (show 0 < row.length by omega)]
    dsimp only
    by_cases hc0 : cellEqEmpty (row.getD 0 (Cell.str "")) = true
    · rw [if_pos hc0, pyIndex_ok (show 1 < row.length by omega)]
      dsimp only
      have h1m := hstr _ (getD_mem (show 1 < row.length by omega))
      cases hc1 : row.getD 1 (Cell.str "") with
      | num n => rw [hc1] at h1m; simp [isStrCell] at h1m
      | bool b => rw [hc1] at h1m; simp [isStrCell] at h1m
      | str s1 =>
        rw [show cellHasSub "Grand Total" (Cell.str s1) =
              .ok (strHasSub "Grand Total" s1) from rfl]
        dsimp only
        have hgt : isGTRow row = (true && strHasSub "Grand Total" s1) := by
          rw [isGTRow, hc0, hc1]
        by_cases hs1 : strHasSub "Grand Total" s1 = true
        · rw [if_pos hs1, ih hrest, List.filter_cons]
          have : (!(isGTRow row)) = false := by
            rw [hgt, hs1]
            rfl
          rw [this]
          simp
        · have hs1f : strHasSub "Grand Total" s1 = false := by
            cases hv : strHasSub "Grand Total" s1 with
            | true => exact absurd hv hs1
            | false => rfl
          rw [if_neg hs1, dfRecordOfRow_ok hrow, ih hrest, List.filter_cons]
          have : (!(isGTRow row)) = true := by
            rw [hgt, hs1f]
            rfl
          rw [this]
          simp
    · have hc0f : cellEqEmpty (row.getD 0 (Cell.str "")) = false := by
        cases hv : cellEqEmpty (row.getD 0 (Cell.str "")) with
        | true => exact absurd hv hc0
        | false => rfl
      rw [if_neg hc0]
      dsimp only
      rw [if_neg (by simp), dfRecordOfRow_ok hrow, ih hrest, List.filter_cons]
      have : (!(isGTRow row)) = true := by
        rw [isGTRow, hc0f]
        rfl
      rw [this]
      simp

/-- Inversion for `dfParseAaData`: every returned record was built by
`dfRecordOfRow` from some input row. -/
theorem dfParseAaData_ok_inv : ∀ (rows : List Row) (recs : List RecordKV),
    dfParseAaData rows = .ok recs →
    ∀ rec ∈ recs, ∃ row ∈ rows, dfRecordOfRow row = .ok rec := by
  intro rows
  induction rows with
  | nil =>
    intro recs h rec hrec
    rw [dfParseAaData] at h
    injection h with h
    subst h
    simp at hrec
  | cons row rest ih =>
    intro recs h rec hrec
    rw [dfParseAaData] at h
    split at h
    · exact absurd h (by simp)
    · split at h
      · exact absurd h (by simp)
      · split at h
        · rcases ih recs h rec hrec with ⟨r, hr, hrec2⟩
          exact ⟨r, List.mem_cons_of_mem _ hr, hrec2⟩
        · cases hrecord : dfRecordOfRow row with
          | error e => rw [hrecord] at h; exact absurd h (by simp)
          | ok record =>
            rw [hrecord] at h
            dsimp only at h
            cases hrecs2 : dfParseAaData rest with
            | error e => rw [hrecs2] at h; exact absurd h (by simp)
            | ok recs2 =>
              rw [hrecs2] at h
              dsimp only at h
              injection h with h
              subst h
              rcases List.mem_cons.mp hrec with hrec | hrec
              · subst hrec
                exact ⟨row, List.mem_cons_self _ _, hrecord⟩
              · rcases ih recs2 hrecs2 rec hrec with ⟨r, hr, hrec2⟩
                exact ⟨r, List.mem_cons_of_mem _ hr, hrec2⟩

/-- Every string field of a record built by `dfRecordOfRow` went through
`clean`, so it contains no HTML tag. -/
theorem dfRecordOfRow_fields_clean {row : Row} {record : RecordKV}
    (h : dfRecordOfRow row = .ok record) :
    ∀ p ∈ record, ∀ s, p.2 = Cell.str s → strHasTag s = false := by
  rw [dfRecordOfRow] at h
  by_cases h13 : 13 ≤ row.length
  · rw [if_pos h13] at h
    cases hc : cellHasSub "tick.png" (row.getD 12 (Cell.str "")) with
    | error e => rw [hc] at h; exact absurd h (by simp)
    | ok elig =>
      rw [hc] at h
      injection h with h
      subst h
      intro p hp s hs
      rcases List.mem_append.mp hp with hp | hp
      · have hz := List.of_mem_zip hp
        rcases List.mem_map.mp hz.2 with ⟨c, hcmem, hcc⟩
        rw [← hcc] at hs
        cases c with
        | str s0 =>
          simp only [cleanCell] at hs
          injection hs with hs
          rw [← hs]
          exact strHasTag_clean s0
        | num n => simp [cleanCell] at hs
        | bool b => simp [cleanCell] at hs
      · have hpe : p = ("eligible", Cell.bool elig) := by simpa using hp
        rw [hpe] at hs
        exact absurd hs (by simp)
  · rw [if_neg h13] at h
    exact absurd h (by simp)

theorem lookupKV_eligible_dfRecordTotal (row : Row) :
    lookupKV "eligible" (dfRecordTotal row) = some (.bool (rowTick row)) := rfl

theorem lookupKV_eligible_scrape (r : ScrapeRow) :
    lookupKV "eligible" (scrapeRecordOfRow r) = some (.bool true) := rfl

/-- A concrete well-formed aaData row, for witnesses. -/
def sampleRow : Row :=
  [Cell.str "1", Cell.str "<b>Facility</b>", Cell.str "10", Cell.str "5",
   Cell.str "15", Cell.str "0", Cell.str "0", Cell.str "15", Cell.str "10",
   Cell.str "5", Cell.str "", Cell.str "", Cell.str "<img src=tick.png>"]

/-- A concrete synthetic Grand Total trailing row, for witnesses. -/
def sampleGTRow : Row :=
  [Cell.str "", Cell.str "<span>Grand Total</span>", Cell.str "10",
   Cell.str "5", Cell.str "15", Cell.str "0", Cell.str "0", Cell.str "15",
   Cell.str "10", Cell.str "5", Cell.str "", Cell.str "", Cell.str ""]

/-- C2 (counterexample): on a payload holding a non-total row with an empty
first cell followed by the synthetic Grand Total trailing row,
`master_scraper.parse_item_data` returns NO records: it drops every row whose
first cell strips to the empty string, not just the Grand Total row — so the
strategy does not return one record for every non-total row. -/
theorem ms_parse_drops_non_total_row :
    ms_parse_item_data
      [[Cell.str "", Cell.str "Facility X"],
       [Cell.str "", Cell.str "Grand Total"]] = .ok [] := rfl

/-- C2 (amended): `data_fetcher.get_item_data`'s aaData conversion, on a
payload of well-formed 13-string rows, excludes exactly the rows carrying
both Grand Total markers (empty first cell and `Grand Total` in the second)
and returns one canonical record per remaining row, in order. -/
theorem aaData_grand_total_filter (rows : List Row)
    (h : ∀ row ∈ rows, wfRow row = true) :
    dfParseAaData rows =
      .ok ((rows.filter (fun r => !(isGTRow r))).map dfRecordTotal) :=
  dfParseAaData_eq rows h

/-- C2 witness: the amended theorem at a concrete payload of one data row and
one Grand Total row; exactly one record results. -/
theorem aaData_grand_total_filter_witness :
    dfParseAaData [sampleRow, sampleGTRow] =
      .ok (([sampleRow, sampleGTRow].filter (fun r => !(isGTRow r))).map
        dfRecordTotal) ∧
    (([sampleRow, sampleGTRow].filter (fun r => !(isGTRow r))).map
        dfRecordTotal).length = 1 :=
  ⟨aaData_grand_total_filter [sampleRow, sampleGTRow] (by decide), rfl⟩

/-- C5 (counterexample): the `data`-key passthrough branch of
`get_item_data` returns payload records unmodified, so a returned record can
carry a string field holding an HTML tag. -/
theorem get_item_data_passthrough_keeps_tags :
    get_item_data (.dataKey [[("facility", Cell.str "<b>X</b>")]]) [] =
      [[("facility", Cell.str "<b>X</b>")]] ∧
    strHasTag "<b>X</b>" = true :=
  ⟨rfl, by decide⟩

/-- C5 (amended): every record produced by the aaData conversion of the
structured-API strategy has HTML tags stripped from every string-valued
field: no string field contains a match of `<[^>]+>`. (The `data`-key and
bare-list branches return payload records unmodified, and the HTML-scrape
strategy copies cell text without tag-stripping.) -/
theorem aaData_records_tag_free :
    ∀ rows recs, dfParseAaData rows = .ok recs →
      ∀ rec ∈ recs, ∀ p ∈ rec, ∀ s, p.2 = Cell.str s → strHasTag s = false := by
  intro rows recs h rec hrec
  rcases dfParseAaData_ok_inv rows recs h rec hrec with ⟨row, _, hrow⟩
  exact dfRecordOfRow_fields_clean hrow

/-- C5 witness: the amended theorem at a concrete one-row payload whose
facility field carried HTML markup (`<b>Facility</b>`), instantiated at the
cleaned field value. -/
theorem aaData_records_tag_free_witness :
    strHasTag (clean "1") = false :=
  aaData_records_tag_free [sampleRow] [dfRecordTotal sampleRow]
    (dfParseAaData_eq [sampleRow] (by decide))
    (dfRecordTotal sampleRow) (List.mem_singleton.mpr rfl)
    ("serial", Cell.str (clean "1")) (List.mem_cons_self _ _)
    (clean "1") rfl

/-- C6 (counterexample): when position 13 is absent (a 12-cell row), the
structured-API strategy does not produce a record with `eligible = false`:
the dict construction raises `IndexError`, the whole aaData conversion is
abandoned, and `get_item_data` falls through to the scrape fallback. -/
theorem primary_aborts_on_short_row :
    dfParseAaData [[Cell.str "1", Cell.str "F", Cell.str "0", Cell.str "0",
      Cell.str "0", Cell.str "0", Cell.str "0", Cell.str "0", Cell.str "0",
      Cell.str "0", Cell.str "", Cell.str ""]] = .error "IndexError" ∧
    get_item_data (.aaData [[Cell.str "1", Cell.str "F", Cell.str "0",
      Cell.str "0", Cell.str "0", Cell.str "0", Cell.str "0", Cell.str "0",
      Cell.str "0", Cell.str "0", Cell.str "", Cell.str ""]]) [] = [] :=
  ⟨rfl, rfl⟩

/-- C6 (amended): in the structured-API strategy, on well-formed rows, each
record's `eligible` flag is true iff the row's 13th position contains the
`tick.png` marker (when the position is absent or non-string the strategy
raises and yields no record at all); every record of the HTML-scrape
strategy has `eligible = true` unconditionally. -/
theorem eligible_flag_policy :
    (∀ rows, (∀ row ∈ rows, wfRow row = true) →
      ∀ row ∈ rows, isGTRow row = false →
        ∃ recs, dfParseAaData rows = .ok recs ∧ dfRecordTotal row ∈ recs ∧
          lookupKV "eligible" (dfRecordTotal row) =
            some (.bool (rowTick row))) ∧
    (∀ srows, ∀ rec ∈ scrapeRows srows,
      lookupKV "eligible" rec = some (.bool true)) := by
  constructor
  · intro rows h row hrow hgt
    refine ⟨(rows.filter (fun r => !(isGTRow r))).map dfRecordTotal,
      dfParseAaData_eq rows h, ?_, lookupKV_eligible_dfRecordTotal row⟩
    exact List.mem_map_of_mem _ (List.mem_filter.mpr ⟨hrow, by rw [hgt]; rfl⟩)
  · intro srows rec hrec
    rw [scrapeRows_filter_eq] at hrec
    rcases List.mem_map.mp hrec with ⟨r, _, hr⟩
    rw [← hr]
    exact lookupKV_eligible_scrape r

/-- C6 witness: the amended theorem at a concrete payload whose 13th position
carries the `tick.png` marker. -/
theorem eligible_flag_policy_witness :
    lookupKV "eligible" (dfRecordTotal sampleRow) =
      some (.bool (rowTick sampleRow)) := by
  obtain ⟨recs, h1, h2, h3⟩ :=
    eligible_flag_policy.1 [sampleRow] (by decide) sampleRow (by simp) (by decide)
  exact h3

/-- C1 (counterexample): for a work-unit key whose rows are already persisted
(the duplicate check matches), re-running `_process_single_item_to_db` still
invokes the leaf fetch engine once: the fetch (line 172) precedes the
duplicate check (lines 194-201), so the re-run is not a fetch-free skip. -/
theorem db_rerun_still_fetches :
    matchCount [DbRow.mk "2023" "01" "WH" "UPZ" "ItemA" []]
      "2023" "01" "WH" "UPZ" "ItemA" = 1 ∧
    (process_single_item_to_db [DbRow.mk "2023" "01" "WH" "UPZ" "ItemA" []]
        "2023" "01" "WH" "UPZ" "ItemA"
        (.ok [[("facility", Cell.str "F")]])).2.count Ev.fetch ≠ 0 := by
  exact ⟨rfl, by decide⟩

/-- C1 (amended): for a work-unit whose duplicate check matches existing rows,
re-running `_process_single_item_to_db` performs exactly one leaf-engine
fetch, inserts no row, and leaves the persisted table unchanged — the
duplicate check is consulted after the fetch but before any insert. -/
theorem db_rerun_no_duplicate_rows :
    ∀ (st : List DbRow) (y m wh upz prod : String)
      (fr : Except String (List RecordKV)),
      0 < matchCount st y m wh upz prod →
      (process_single_item_to_db st y m wh upz prod fr).1 = st ∧
      (process_single_item_to_db st y m wh upz prod fr).2.count Ev.fetch = 1 ∧
      ∀ r, Ev.insert r ∉ (process_single_item_to_db st y m wh upz prod fr).2 := by
  intro st y m wh upz prod fr hpos
  cases fr with
  | error e =>
    have hE : process_single_item_to_db st y m wh upz prod (.error e) =
        (st, [Ev.progress "in_progress" 0, Ev.fetch, Ev.progress "failed" 0]) :=
      rfl
    rw [hE]
    refine ⟨rfl, rfl, ?_⟩
    intro r hr
    simp at hr
  | ok data =>
    by_cases hemp : data.isEmpty = true
    · have hE : process_single_item_to_db st y m wh upz prod (.ok data) =
          (st, [Ev.progress "in_progress" 0, Ev.fetch,
            Ev.progress "failed" 0]) := by
        unfold process_single_item_to_db
        dsimp only
        rw [if_pos hemp]
        rfl
      rw [hE]
      refine ⟨rfl, rfl, ?_⟩
      intro r hr
      simp at hr
    · have hE : process_single_item_to_db st y m wh upz prod (.ok data) =
          (st, [Ev.progress "in_progress" 0, Ev.fetch,
            Ev.progress "completed" (matchCount st y m wh upz prod)]) := by
        unfold process_single_item_to_db
        dsimp only
        rw [if_neg hemp, if_pos hpos]
        rfl
      rw [hE]
      refine ⟨rfl, ?_, ?_⟩
      · rfl
      · intro r hr
        simp at hr

/-- C1 witness: the amended theorem at a concrete state holding a matching
row, with a non-empty fetch result. -/
theorem db_rerun_no_duplicate_rows_witness :
    (process_single_item_to_db [DbRow.mk "2023" "01" "WH" "UPZ" "ItemA" []]
        "2023" "01" "WH" "UPZ" "ItemA"
        (.ok [[("facility", Cell.str "F")]])).1 =
      [DbRow.mk "2023" "01" "WH" "UPZ" "ItemA" []] ∧
    (process_single_item_to_db [DbRow.mk "2023" "01" "WH" "UPZ" "ItemA" []]
        "2023" "01" "WH" "UPZ" "ItemA"
        (.ok [[("facility", Cell.str "F")]])).2.count Ev.fetch = 1 :=
  ⟨(db_rerun_no_duplicate_rows _ _ _ _ _ _ _ (by decide)).1,
   (db_rerun_no_duplicate_rows _ _ _ _ _ _ _ (by decide)).2.1⟩

/-! ## C4: the date-range generator -/

theorem genDateRangesAux_spec : ∀ (ey em cy cm : Nat),
    1 ≤ cm → cm ≤ 12 → 1 ≤ em → em ≤ 12 →
    genDateRangesAux ey em cy cm =
      (List.range (ey * 12 + em + 1 - (cy * 12 + cm))).map
        (fun i => (toString ((cy * 12 + cm + i - 1) / 12),
                   render2 ((cy * 12 + cm + i - 1) % 12 + 1))) := by
  intro ey em cy cm
  induction cy, cm using genDateRangesAux.induct ey em with
  | case1 cy cm h ih1 ih2 =>
    intro h1 h12 he1 he12
    by_cases h2 : cm + 1 > 12
    · have hcm : cm = 12 := by omega
      subst hcm
      rw [genDateRangesAux, dif_pos h, dif_pos h2]
      rw [ih1 (by omega) (by omega) he1 he12]
      have hK : ey * 12 + em + 1 - (cy * 12 + 12) =
          (ey * 12 + em + 1 - ((cy + 1) * 12 + 1)) + 1 := by omega
      rw [hK, List.range_succ_eq_map, List.map_cons, List.map_map]
      congr 1
      · rw [show cy * 12 + 12 + 0 - 1 = cy * 12 + 11 by omega]
        rw [show (cy * 12 + 11) / 12 = cy by omega]
        rw [show (cy * 12 + 11) % 12 + 1 = 12 by omega]
      · apply List.map_congr_left
        intro i _
        show (toString (((cy + 1) * 12 + 1 + i - 1) / 12),
              render2 (((cy + 1) * 12 + 1 + i - 1) % 12 + 1)) =
             (toString ((cy * 12 + 12 + (i + 1) - 1) / 12),
              render2 ((cy * 12 + 12 + (i + 1) - 1) % 12 + 1))
        rw [show (cy + 1) * 12 + 1 + i - 1 = cy * 12 + 12 + (i + 1) - 1 by omega]
    · rw [genDateRangesAux, dif_pos h, dif_neg h2]
      rw [ih2 h2 (by omega) (by omega) he1 he12]
      have hK : ey * 12 + em + 1 - (cy * 12 + cm) =
          (ey * 12 + em + 1 - (cy * 12 + (cm + 1))) + 1 := by omega
      rw [hK, List.range_succ_eq_map, List.map_cons, List.map_map]
      congr 1
      · rw [show cy * 12 + cm + 0 - 1 = cy * 12 + (cm - 1) by omega]
        rw [show (cy * 12 + (cm - 1)) / 12 = cy by omega]
        rw [show (cy * 12 + (cm - 1)) % 12 + 1 = cm by omega]
      · apply List.map_congr_left
        intro i _
        show (toString ((cy * 12 + (cm + 1) + i - 1) / 12),
              render2 ((cy * 12 + (cm + 1) + i - 1) % 12 + 1)) =
             (toString ((cy * 12 + cm + (i + 1) - 1) / 12),
              render2 ((cy * 12 + cm + (i + 1) - 1) % 12 + 1))
        rw [show cy * 12 + (cm + 1) + i - 1 = cy * 12 + cm + (i + 1) - 1 by omega]
  | case2 cy cm h =>
    intro h1 h12 he1 he12
    rw [genDateRangesAux, dif_neg h]
    rw [show ey * 12 + em + 1 - (cy * 12 + cm) = 0 by omega]
    rfl

/-- C4: for months in range and start ≤ end in (year, month) order,
`generate_date_ranges` returns exactly the contiguous inclusive ascending
sequence of year-month pairs from start through end — the k-th element is the
start period advanced by k months — with year rendered by `str()` and month
2-digit zero-padded; its length is the month distance plus one. -/
theorem generate_date_ranges_spec (sy sm ey em : Nat)
    (h1 : 1 ≤ sm) (h2 : sm ≤ 12) (h3 : 1 ≤ em) (h4 : em ≤ 12)
    (h5 : sy < ey ∨ (sy = ey ∧ sm ≤ em)) :
    generate_date_ranges sy sm ey em =
      (List.range (ey * 12 + em + 1 - (sy * 12 + sm))).map
        (fun i => (toString ((sy * 12 + sm + i - 1) / 12),
                   render2 ((sy * 12 + sm + i - 1) % 12 + 1))) ∧
    (generate_date_ranges sy sm ey em).length =
      (ey * 12 + em) - (sy * 12 + sm) + 1 := by
  have hmain := genDateRangesAux_spec ey em sy sm h1 h2 h3 h4
  refine ⟨hmain, ?_⟩
  unfold generate_date_ranges
  rw [hmain, List.length_map, List.length_range]
  omega

/-- C4 witness: the generator from 2023-11 through 2024-02. -/
theorem generate_date_ranges_spec_witness :
    generate_date_ranges 2023 11 2024 2 =
      (List.range (2024 * 12 + 2 + 1 - (2023 * 12 + 11))).map
        (fun i => (toString ((2023 * 12 + 11 + i - 1) / 12),
                   render2 ((2023 * 12 + 11 + i - 1) % 12 + 1))) ∧
    (generate_date_ranges 2023 11 2024 2).length =
      (2024 * 12 + 2) - (2023 * 12 + 11) + 1 :=
  generate_date_ranges_spec 2023 11 2024 2 (by norm_num) (by norm_num)
    (by norm_num) (by norm_num) (Or.inl (by norm_num))

end BDScraper
